import Mathlib

/-!
Verification of the smart-splitter core of `media-tools`
(`src/smart_splitter/media.py`, `src/smart_splitter/models.py`,
`src/core/utils.py`) against its natural-language specification.

Shallow embedding conventions:
* Python `Decimal` timestamps are embedded as `ℚ` (the Decimal arithmetic
  used here — comparison, `abs`, addition, subtraction, multiplication and
  division by 2 — is exact for the values in range of the default context).
* Python `int` is embedded as `ℤ` (or `ℕ` where the source value is a
  regex-extracted digit string).
* Fallible code returns `Except`.
-/

namespace SmartSplitter

/-- Python `round` on a `Decimal` with no `ndigits` argument: rounding to an
integer with `ROUND_HALF_EVEN` (banker's rounding). -/
def pyRound (q : ℚ) : ℤ :=
  let f := ⌊q⌋
  let r := q - (f : ℚ)
  if r < 1/2 then f
  else if 1/2 < r then f + 1
  else if 2 ∣ f then f else f + 1

/-- `core/utils.py`, `fps_adjusted_frame(secs, fps) = round(fps * secs)`. -/
def fps_adjusted_frame (secs : ℚ) (fps : ℚ) : ℤ :=
  pyRound (fps * secs)

/-- `models.py` `DetectMetadata`: one black/silence start/end detection event.
`type` is the detection kind (`"black"` / `"silence"`), `sub_type` the edge
(`some "start"` / `some "end"`; the regex group is optional, hence `Option`),
`timestamp` is `Decimal(frame_metadata.value)`. -/
structure DetectMetadata where
  type : String
  sub_type : Option String
  frame : ℤ
  pts : ℤ
  pts_time : ℚ
  timestamp : ℚ
deriving DecidableEq, Repr

/-- `models.py` `DetectInterval`: a paired start/end event. -/
structure DetectInterval where
  start : DetectMetadata
  «end» : DetectMetadata
deriving DecidableEq, Repr

/-- `models.py` `DetectInterval.overlaps(self, other, tolerance=Decimal("0.5"))`,
translated branch for branch.  `self` plays the role of the black interval and
`other` of the silence interval at the call site in `Media.split_points`. -/
def DetectInterval.overlaps (self other : DetectInterval) (tolerance : ℚ) : Bool :=
  let st := self.start.timestamp
  let et := self.«end».timestamp
  let other_st := other.start.timestamp
  let other_et := other.«end».timestamp
  if st ≥ other_st ∧ et ≤ other_et then true
  else if st > other_et ∨ et < other_st then false
  else if |st - other_st| ≤ tolerance ∨ |et - other_et| ≤ tolerance then true
  else false

/-- Default value of the `tolerance` argument of `DetectInterval.overlaps`. -/
def defaultTolerance : ℚ := 1/2

/-- `models.py` `SplitMetadata`: a matched (black interval, silence interval)
pair. -/
structure SplitMetadata where
  black_frame : DetectInterval
  silent_frame : DetectInterval
deriving DecidableEq, Repr

/-- `models.py` `SplitMetadata.adjusted_silent_start_frame`. -/
def SplitMetadata.adjusted_silent_start_frame (sp : SplitMetadata) (video_fps : ℚ) : ℤ :=
  fps_adjusted_frame sp.silent_frame.start.timestamp video_fps

/-- `models.py` `SplitMetadata.adjusted_silent_end_frame`. -/
def SplitMetadata.adjusted_silent_end_frame (sp : SplitMetadata) (video_fps : ℚ) : ℤ :=
  fps_adjusted_frame sp.silent_frame.«end».timestamp video_fps

/-- `models.py` `SplitMetadata.adjusted_start_frame`: Python
`int((start_frame + end_frame) / 2)` truncates the float average toward zero,
which on integers is exactly `Int.tdiv (start_frame + end_frame) 2`. -/
def SplitMetadata.adjusted_start_frame (sp : SplitMetadata) (video_fps : ℚ) : ℤ :=
  Int.tdiv (sp.adjusted_silent_start_frame video_fps + sp.adjusted_silent_end_frame video_fps) 2

/-- `models.py` `SplitMetadata.average_start_timestamp`. -/
def SplitMetadata.average_start_timestamp (sp : SplitMetadata) : ℚ :=
  (sp.silent_frame.start.timestamp + sp.silent_frame.«end».timestamp) / 2

/-- Modelled from the spec: `Media.clip` calls `start.frame(fps)` on a
`SplitMetadata`, but no `frame` method appears in `src/smart_splitter/models.py`.
The repository's per-split cut-frame computation is
`SplitMetadata.adjusted_start_frame` (models.py lines 154-157, the code the spec
cites for the per-split frame; the legacy splitter in `src/media.py` uses it
directly for its frame bounds), so `frame` is taken to be
`adjusted_start_frame`. -/
def SplitMetadata.frame (sp : SplitMetadata) (video_fps : ℚ) : ℤ :=
  sp.adjusted_start_frame video_fps

/-- Modelled from the spec: `Media.clip` calls `start.time()` on a
`SplitMetadata`, which is likewise missing from `models.py`.  The split's cut
time is its average silence timestamp (`average_start_timestamp`), the
time-domain counterpart of the cut frame. -/
def SplitMetadata.time (sp : SplitMetadata) : ℚ :=
  sp.average_start_timestamp

/-- Modelled from the spec: `Media.clips` calls `first.time_start()` for the
duration of the would-be leading clip; missing from `models.py`, taken to be
the split's silence-interval start timestamp. -/
def SplitMetadata.time_start (sp : SplitMetadata) : ℚ :=
  sp.silent_frame.start.timestamp

/-- Modelled from the spec: `Media.clips` calls `last.time_end()` for the
duration of the would-be trailing clip; missing from `models.py`, taken to be
the split's silence-interval end timestamp. -/
def SplitMetadata.time_end (sp : SplitMetadata) : ℚ :=
  sp.silent_frame.«end».timestamp

/-- The inner `for i, silent_interval in enumerate(_silent_intervals)` loop of
`Media.split_points`: find the first silence interval overlapping the given
black interval and remove it (`_silent_intervals.pop(i)`) from the pool. -/
def popFirstOverlap (b : DetectInterval) :
    List DetectInterval → Option (DetectInterval × List DetectInterval)
  | [] => none
  | s :: ss =>
    if b.overlaps s defaultTolerance then some (s, ss)
    else
      match popFirstOverlap b ss with
      | some (s1, ss1) => some (s1, s :: ss1)
      | none => none

/-- `media.py` `Media.split_points` (lines 280-312): repeatedly pop the first
remaining black interval, scan the remaining silence intervals in order for
the first overlapping one, and consume both into a `SplitMetadata`; a black
interval with no overlapping silence interval is discarded. -/
def split_points : List DetectInterval → List DetectInterval → List SplitMetadata
  | [], _ => []
  | b :: bs, silents =>
    match popFirstOverlap b silents with
    | some (s, silents1) => ⟨b, s⟩ :: split_points bs silents1
    | none => split_points bs silents

/-- `media.py` `Media.intervals` (lines 253-270): pair the extracted detection
events two at a time; a pair whose first element is not a `start` edge or whose
second is not an `end` edge is a fatal error carrying both frames.  The
`while i + 1 < len(frames)` loop exits with one element left over, so a
trailing lone event is dropped. -/
inductive PairError where
  | expectedStartEnd (start_frame end_frame : DetectMetadata)
deriving DecidableEq, Repr

/-- The pairing loop of `Media.intervals`. -/
def intervals : List DetectMetadata → Except PairError (List DetectInterval)
  | f1 :: f2 :: rest =>
    if f1.sub_type = some "start" ∧ f2.sub_type = some "end" then
      match intervals rest with
      | .ok l => .ok (⟨f1, f2⟩ :: l)
      | .error e => .error e
    else
      .error (.expectedStartEnd f1 f2)
  | _ => .ok []

/-- `models.py` `Clip`. -/
structure Clip where
  frame_start : ℤ
  frame_end : ℤ
  time_start : ℚ
  time_end : ℚ
deriving DecidableEq, Repr

/-- `models.py` `Clip.frames`. -/
def Clip.frames (c : Clip) : ℤ := c.frame_end - c.frame_start

/-- `models.py` `Clip.duration`. -/
def Clip.duration (c : Clip) : ℚ := c.time_end - c.time_start

/-- `media.py` `Media.clip` (lines 314-322): clip bounds from an optional pair
of split points; `none` stands for the start (frame `0`, time `0`) or the end
(`video_frame_count`, `video_duration`) of the stream. -/
def clip (startp endp : Option SplitMetadata) (fps : ℚ)
    (video_frame_count : ℤ) (video_duration : ℚ) : Clip :=
  { frame_start := match startp with | some sp => sp.frame fps | none => 0
    time_start := match startp with | some sp => sp.time | none => 0
    frame_end := match endp with | some sp => sp.frame fps | none => video_frame_count
    time_end := match endp with | some sp => sp.time | none => video_duration }

/-- The `for index in range(len(split_points) - 1)` loop of `Media.clips`:
one clip per consecutive pair of plan points. -/
def clipsOf (fps : ℚ) (cnt : ℤ) (dur : ℚ) : List (Option SplitMetadata) → List Clip
  | p :: q :: rest => clip p q fps cnt dur :: clipsOf fps cnt dur (q :: rest)
  | _ => []

/-- The plan-point list built by `Media.clips` (lines 324-345) before the
length check: a leading `None` (start-of-video point) is added only when the
would-be leading clip lasts at least `min_duration = 3` seconds, and a trailing
`None` only when the would-be trailing clip does. -/
def planPoints (sps : List SplitMetadata) (dur : ℚ) : List (Option SplitMetadata) :=
  match sps with
  | [] => []
  | s0 :: rest =>
    (if 3 ≤ s0.time_start then [(none : Option SplitMetadata)] else []) ++
      (s0 :: rest).map some ++
      (if 3 ≤ dur - ((s0 :: rest).getLast (List.cons_ne_nil s0 rest)).time_end then
        [(none : Option SplitMetadata)] else [])

/-- `media.py` `Media.clips` (lines 324-351): plan points with the whole-video
fallback `[None, None]` when at most one point remains, then one clip per
consecutive pair. -/
def clips (sps : List SplitMetadata) (fps : ℚ) (cnt : ℤ) (dur : ℚ) : List Clip :=
  let pts := planPoints sps dur
  clipsOf fps cnt dur (if pts.length ≤ 1 then [none, none] else pts)

/-- Decimal digits of a natural number, most significant first; the first
argument is structural-recursion fuel (`n` itself suffices). -/
def natDigitsGo : Nat → Nat → List Char
  | 0, _ => []
  | fuel + 1, n =>
    if n = 0 then []
    else natDigitsGo fuel (n / 10) ++ [Char.ofNat (48 + n % 10)]

/-- Decimal representation of a natural number. -/
def natRepr (n : Nat) : List Char :=
  if n = 0 then ['0'] else natDigitsGo n n

/-- Python `f"{i:0>3}"`: pad the decimal representation on the left with `'0'`
to width 3. -/
def pad3 (i : Nat) : String :=
  let ds := natRepr i
  ⟨List.replicate (3 - ds.length) '0' ++ ds⟩

/-- `media.py` `Media.split`: `clip_file = f"{clip_index:0>3}{self.extension}"`.
Paths are relative to the output folder, which is constant over the run. -/
def clip_file (i : Nat) (ext : String) : String := pad3 i ++ ext

/-- State of the encode driver's observable effects: the set of existing paths
in the output folder, the number of transcoder invocations performed, and
whether the manifest (`info.yaml`) has been written.  The in-memory `info`
dict is a pure function of the clip list (every clip is inserted before the
skip check) and is not tracked separately. -/
structure SplitState where
  files : List String
  transcode_calls : Nat
  manifest_written : Bool
deriving DecidableEq, Repr

/-- File-set membership. -/
def SplitState.exists (st : SplitState) (p : String) : Bool := st.files.contains p

/-- `os.remove` (guarded by an existence check in the source, so removing an
absent path is the same no-op). -/
def removeFile (p : String) (fs : List String) : List String :=
  fs.filter (fun q => q ≠ p)

/-- The `for clip_index, clip in enumerate(clips)` loop of `Media.split`
(lines 393-440), one iteration per clip, carrying the running index.
Per iteration: skip if the final output exists; delete a stale `.incomplete`;
hard-link the source when the whole file is a single clip; otherwise (unless
`dry_run`) invoke the transcoder — `tr i` is the external transcoder's success
for clip `i` — and on success rename `.incomplete` to the final name, on
failure propagate `CalledProcessError` (the `.incomplete` artifact may remain).
The reassignment `clip_index += 1` in the source has no further effect and is
dropped. -/
def splitLoop (tr : Nat → Bool) (dry : Bool) (ext : String) (nclips : Nat) :
    Nat → List Clip → SplitState → Except SplitState SplitState
  | _, [], st => .ok st
  | i, _c :: rest, st =>
    let clip_path := clip_file i ext
    let incomplete_clip_path := clip_path ++ ".incomplete"
    if st.exists clip_path then
      splitLoop tr dry ext nclips (i + 1) rest st
    else
      let st1 : SplitState := { st with files := removeFile incomplete_clip_path st.files }
      if nclips = 1 then
        splitLoop tr dry ext nclips (i + 1) rest { st1 with files := clip_path :: st1.files }
      else if dry then
        splitLoop tr dry ext nclips (i + 1) rest st1
      else
        let st2 : SplitState := { st1 with transcode_calls := st1.transcode_calls + 1 }
        if tr i then
          splitLoop tr dry ext nclips (i + 1) rest { st2 with files := clip_path :: st2.files }
        else
          .error { st2 with files := incomplete_clip_path :: st2.files }

/-- `media.py` `Media.split` (lines 393-440): run the per-clip loop over the
plan and, only after it finishes without a fatal error, write the manifest
(`self._save_info(info)`). -/
def split (tr : Nat → Bool) (dry : Bool) (ext : String) (cs : List Clip)
    (st0 : SplitState) : Except SplitState SplitState :=
  match splitLoop tr dry ext cs.length 0 cs st0 with
  | .ok st => .ok { st with manifest_written := true }
  | .error st => .error st

/-- ASCII decimal digit, Python regex `\d` (ASCII portion). -/
def isDigitChar (c : Char) : Bool := '0' ≤ c && c ≤ '9'

/-- Python regex `\s` / `str.strip` whitespace (ASCII portion). -/
def isSpaceChar (c : Char) : Bool :=
  c = ' ' || c = '\t' || c = '\n' || c = '\x0d' || c = '\x0b' || c = '\x0c'

/-- Value of a digit string. -/
def digitsVal (ds : List Char) : Nat :=
  ds.foldl (fun a c => a * 10 + (c.toNat - 48)) 0

/-- Python `str.strip()`. -/
def pyStrip (s : String) : String :=
  ⟨((s.data.dropWhile isSpaceChar).reverse.dropWhile isSpaceChar).reverse⟩

/-- Match a literal prefix, returning the remainder. -/
def dropLiteral : List Char → List Char → Option (List Char)
  | [], s => some s
  | _ :: _, [] => none
  | c :: cs, x :: xs => if x = c then dropLiteral cs xs else none

/-- `re.match` of `Media.FFMPEG_FRAME_LINE`,
`frame:(\d+)\s+pts:(\d+)\s+pts_time:(-?\d+\.?\d*)`, returning
`(int(g1), int(g2), Decimal(g3))`.  `re.match` is a prefix match, so trailing
characters after the third group are allowed; the greedy runs `\d+`, `\s+`,
`\d*` are maximal (each is followed by a token its own character class cannot
match, so no backtracking arises). -/
def matchFrameLine (s : String) : Option (ℤ × ℤ × ℚ) :=
  match dropLiteral "frame:".data s.data with
  | none => none
  | some r1 =>
    match r1.span isDigitChar with
    | (d1, r2) =>
      if d1 = [] then none else
      match r2.span isSpaceChar with
      | (w1, r3) =>
        if w1 = [] then none else
        match dropLiteral "pts:".data r3 with
        | none => none
        | some r4 =>
          match r4.span isDigitChar with
          | (d2, r5) =>
            if d2 = [] then none else
            match r5.span isSpaceChar with
            | (w2, r6) =>
              if w2 = [] then none else
              match dropLiteral "pts_time:".data r6 with
              | none => none
              | some r7 =>
                let signedRest : Bool × List Char :=
                  match r7 with
                  | '-' :: t => (true, t)
                  | _ => (false, r7)
                match signedRest.snd.span isDigitChar with
                | (d3, r9) =>
                  if d3 = [] then none else
                  let fracPart : List Char :=
                    match r9 with
                    | '.' :: t => (t.span isDigitChar).fst
                    | _ => []
                  let mag : ℚ :=
                    (digitsVal d3 : ℚ) + (digitsVal fracPart : ℚ) / (10 : ℚ) ^ fracPart.length
                  some ((digitsVal d1 : ℤ), (digitsVal d2 : ℤ), if signedRest.fst then -mag else mag)

/-- Lazy match of the tail `([^_]+?)=(.+)` of the key-line pattern, entered
after an `_`: grow the `[^_]+?` group one character at a time (stopping at an
`_`), after each character first trying the literal `=` followed by a
non-empty remainder. -/
def subMatchGo : List Char → List Char → Option (List Char × List Char)
  | _, [] => none
  | acc, c :: rest =>
    if c = '_' then none
    else
      match rest with
      | '=' :: v =>
        if v ≠ [] then some (acc ++ [c], v) else subMatchGo (acc ++ [c]) rest
      | _ => subMatchGo (acc ++ [c]) rest

/-- Lazy match of `(.+?)(?:_([^_]+?))?=(.+)` with the `(.+?)` group currently
holding `acc` (non-empty): at each position first try the greedy optional
`_`-group, then the bare `=`, then extend `(.+?)` by one character. -/
def kGo : List Char → List Char → Option (List Char × Option (List Char) × List Char)
  | _, [] => none
  | acc, c :: rest =>
    if c = '_' then
      match subMatchGo [] rest with
      | some (g3, g4) => some (acc, some g3, g4)
      | none => kGo (acc ++ [c]) rest
    else if c = '=' then
      if rest ≠ [] then some (acc, none, rest) else kGo (acc ++ [c]) rest
    else kGo (acc ++ [c]) rest

/-- Match of `(.+?)(?:_([^_]+?))?=(.+)` from the start of `cs`. -/
def restMatch : List Char → Option (List Char × Option (List Char) × List Char)
  | [] => none
  | c :: rest => kGo [c] rest

/-- `re.match` of `Media.FFMPEG_KEY_LINE`,
`(?:([^.]+?)\.)?(.+?)(?:_([^_]+?))?=(.+)`, with Python's backtracking order:
the optional leading group is tried first and, being `[^.]+?` followed by a
literal dot, can only denote the segment before the string's first `.`
(at least one character long); if the remainder fails to match, the whole
group is dropped and matching restarts at position 0 without it. -/
def matchKeyLine (s : String) : Option (Option String × String × Option String × String) :=
  let cs := s.data
  let withFilter : Option (Option String × String × Option String × String) :=
    match cs.span (fun c => c != '.') with
    | (pre, '.' :: after) =>
      if pre = [] then none
      else
        match restMatch after with
        | some (g2, g3, g4) =>
          some (some (String.mk pre), String.mk g2, g3.map String.mk, String.mk g4)
        | none => none
    | _ => none
  match withFilter with
  | some r => some r
  | none =>
    match restMatch cs with
    | some (g2, g3, g4) => some (none, String.mk g2, g3.map String.mk, String.mk g4)
    | none => none

/-- `models.py` `FrameMetadata`: a parsed key line.  The optional groups are
`Option` (a matched group is never the empty string, so Python's falsy test
coincides with `Option.isSome`). -/
structure FrameMetadata where
  raw : String
  filter : Option String
  type : String
  sub_type : Option String
  value : String
deriving DecidableEq, Repr

/-- `models.py` `FrameMetadata.key`: the f-string
`f"{self.filter}.{self.type}{sub_type}"` renders a `None` filter as the
literal text `None`. -/
def FrameMetadata.key (m : FrameMetadata) : String :=
  (match m.filter with | some f => f | none => "None") ++ "." ++ m.type ++
    (match m.sub_type with | some st => "_" ++ st | none => "")

/-- `models.py` `FrameInfo`: one frame marker with its attached metadata
fields (an insertion-ordered mapping keyed by `FrameMetadata.key`). -/
structure FrameInfo where
  raw : String
  frame : ℤ
  pts : ℤ
  pts_time : ℚ
  metadata : List (String × FrameMetadata)
deriving DecidableEq, Repr

/-- The per-line loop of `Media.frames` (lines 199-227): a frame line flushes
the current frame and starts a new one; a key line attaches metadata to the
current frame (no current frame or a duplicate key is fatal); any other line
is a fatal parsing error.  EOF flushes the last open frame. -/
def framesGo : List String → List FrameInfo → Option FrameInfo →
    Except String (List FrameInfo)
  | [], acc, cur => .ok (acc ++ cur.toList)
  | l :: ls, acc, cur =>
    let line := pyStrip l
    match matchFrameLine line with
    | some g =>
      framesGo ls (acc ++ cur.toList) (some ⟨line, g.fst, g.snd.fst, g.snd.snd, []⟩)
    | none =>
      match matchKeyLine line with
      | some g =>
        match cur with
        | none => .error ("frame metadata found, but no frame: " ++ line)
        | some f =>
          let md : FrameMetadata := ⟨line, g.fst, g.snd.fst, g.snd.snd.fst, g.snd.snd.snd⟩
          if (f.metadata.lookup md.key).isSome then
            .error ("metadata already exists: " ++ line)
          else
            framesGo ls acc (some { f with metadata := f.metadata ++ [(md.key, md)] })
      | none => .error ("ffmpeg parsing error: " ++ line)

/-- `media.py` `Media.frames`: parse the stripped lines of the analysis
output. -/
def frames (lines : List String) : Except String (List FrameInfo) :=
  framesGo lines [] none

/-- Python `int(str)` on a stripped decimal literal: optional sign and at least
one digit (PEP 515 underscore grouping is not used by this repository's
inputs and is not modelled). -/
def pyInt (cs : List Char) : Option ℤ :=
  let t := (cs.dropWhile isSpaceChar).reverse.dropWhile isSpaceChar
  let t := t.reverse
  match t with
  | '-' :: ds => if ds ≠ [] ∧ ds.all isDigitChar then some (-(digitsVal ds : ℤ)) else none
  | '+' :: ds => if ds ≠ [] ∧ ds.all isDigitChar then some (digitsVal ds : ℤ) else none
  | ds => if ds ≠ [] ∧ ds.all isDigitChar then some (digitsVal ds : ℤ) else none

/-- Python `str.split(sep)` for a single-character separator. -/
def splitOnChar (c : Char) : List Char → List (List Char)
  | [] => [[]]
  | x :: xs =>
    match splitOnChar c xs with
    | r =>
      if x = c then [] :: r
      else
        match r with
        | h :: t => (x :: h) :: t
        | [] => [[x]]

/-- `Decimal(f"{seconds}.{fractional}")`: valid when the fractional part is a
(possibly empty) digit string; the sign of `seconds` applies to the whole
value. -/
def decimalOfParts (seconds : ℤ) (frac : List Char) : Except String ℚ :=
  if frac.all isDigitChar then
    let fracVal : ℚ := (digitsVal frac : ℚ) / (10 : ℚ) ^ frac.length
    .ok (if seconds < 0 then -((-seconds : ℤ) + fracVal) else (seconds : ℚ) + fracVal)
  else
    .error "decimal.InvalidOperation"

/-- `core/utils.py` `parse_timestamp` (lines 55-59), imported by
`smart_splitter/media.py` under the name `parse_duration` (the import target
`parse_duration` is absent from `core/utils.py`; `parse_timestamp` is the
repository's only such parser and is the function the spec cites):
split on `.` into exactly two parts, split the first on `:` into exactly
three, and build `Decimal(f"{h*3600+m*60+s}.{fractional}")`. -/
def parse_timestamp (timestamp : String) : Except String ℚ :=
  match splitOnChar '.' timestamp.data with
  | [hms, fractional] =>
    match splitOnChar ':' hms with
    | [h, m, s] =>
      match pyInt h, pyInt m, pyInt s with
      | some hv, some mv, some sv => decimalOfParts (hv * 3600 + mv * 60 + sv) fractional
      | _, _, _ => .error "ValueError: invalid literal for int"
    | _ => .error "ValueError: unpack h m s"
  | _ => .error "ValueError: unpack hms fractional"

/-- Prefix test on character lists. -/
def startsWithChars : List Char → List Char → Bool
  | [], _ => true
  | _ :: _, [] => false
  | c :: cs, x :: xs => c = x && startsWithChars cs xs

/-- Python `needle in haystack` on strings. -/
def containsSub (needle : List Char) : List Char → Bool
  | [] => startsWithChars needle []
  | x :: xs => startsWithChars needle (x :: xs) || containsSub needle xs

/-- Python `"duration" in k.lower()` (ASCII lowering suffices for tag keys). -/
def hasDurationKey (k : String) : Bool :=
  containsSub "duration".data (k.data.map Char.toLower)

/-- A probed stream as `Media.stream_duration` reads it: its tag mapping in
insertion order and its optional stream-level `duration` field (a string in
the probe JSON). -/
structure StreamInfo where
  tags : List (String × String)
  duration : Option String
deriving DecidableEq, Repr

/-- `media.py` `Media.stream_duration` (lines 133-141): return the parse of
the first tag whose key contains `duration` case-insensitively; otherwise the
parse of the stream-level `duration` field; otherwise the missing-duration
error `ValueError("no duration tag found!!")`. -/
def stream_duration (s : StreamInfo) : Except String ℚ :=
  match s.tags.find? (fun kv => hasDurationKey kv.fst) with
  | some kv => parse_timestamp kv.snd
  | none =>
    match s.duration with
    | some d => parse_timestamp d
    | none => .error "no duration tag found!!"

/-- A detection interval is proper: its start does not come after its end
(spec §3, `DetectionInterval` invariant `start.timestamp ≤ end.timestamp`). -/
def properI (a : DetectInterval) : Prop :=
  a.start.timestamp ≤ a.«end».timestamp

/-- Interval `a` ends strictly before interval `b` starts (the shape of the
detector's output: pairwise-disjoint intervals in ascending order). -/
def intervalBefore (a b : DetectInterval) : Prop :=
  a.«end».timestamp < b.start.timestamp

/-- Concrete detection event with the given kind, edge and timestamp. -/
def dm (ty sub : String) (ts : ℚ) : DetectMetadata := ⟨ty, some sub, 0, 0, ts, ts⟩

/-- Concrete detection interval with the given kind and timestamps. -/
def mkIv (ty : String) (a b : ℚ) : DetectInterval := ⟨dm ty "start" a, dm ty "end" b⟩

/-- Scenario black interval `[2.00, 2.60]` (spec §8). -/
def blScn : DetectInterval := mkIv "black" 2 (13/5)

/-- Scenario silence interval `[1.90, 2.70]` (spec §8). -/
def siScn : DetectInterval := mkIv "silence" (19/10) (27/10)

/-- A split point whose silence interval is `[0.4, 1.4]`: rounding its silence
edges at 1 fps gives frames 0 and 1, whose truncated average is 0, while
`round(fps x averageSilenceTimestamp) = round(0.9) = 1`. -/
def spRoundCex : SplitMetadata := ⟨mkIv "black" (1/2) (13/10), mkIv "silence" (2/5) (7/5)⟩

/-- A split point at silence `[1.0, 1.4]`: its leading clip would last less
than 3 s, so the plan drops the leading segment. -/
def spPlanCex : SplitMetadata := ⟨mkIv "black" (21/20) (27/20), mkIv "silence" 1 (7/5)⟩

/-- A split point at silence `[5.0, 5.4]`: both the leading and (for a 60 s
stream) trailing clips meet the 3 s minimum. -/
def spPlanWit : SplitMetadata := ⟨mkIv "black" (51/10) (53/10), mkIv "silence" 5 (27/5)⟩

/-- First black interval `[9.7, 30]` of the matcher counterexample. -/
def bMatchCex1 : DetectInterval := mkIv "black" (97/10) 30

/-- Second black interval `[9.8, 10]` of the matcher counterexample. -/
def bMatchCex2 : DetectInterval := mkIv "black" (49/5) 10

/-- First silence interval `[0, 10]` of the matcher counterexample. -/
def sMatchCex1 : DetectInterval := mkIv "silence" 0 10

/-- Second silence interval `[10.3, 30]` of the matcher counterexample. -/
def sMatchCex2 : DetectInterval := mkIv "silence" (103/10) 30

/-- Black intervals of the matcher witness. -/
def bMatchWit1 : DetectInterval := mkIv "black" 2 (13/5)

/-- Second black interval of the matcher witness. -/
def bMatchWit2 : DetectInterval := mkIv "black" 12 (63/5)

/-- First silence interval of the matcher witness. -/
def sMatchWit1 : DetectInterval := mkIv "silence" (19/10) (27/10)

/-- Second silence interval of the matcher witness. -/
def sMatchWit2 : DetectInterval := mkIv "silence" (119/10) (127/10)

/-- `[2, 3]`, strictly inside `ivOuter` with both edges farther than the 0.5 s
tolerance. -/
def ivInner : DetectInterval := mkIv "black" 2 3

/-- `[0, 10]`. -/
def ivOuter : DetectInterval := mkIv "silence" 0 10

/-- `[0, 1]`, crossing `ivCrossB` with near starts. -/
def ivCrossA : DetectInterval := mkIv "black" 0 1

/-- `[0.4, 1.4]`. -/
def ivCrossB : DetectInterval := mkIv "silence" (2/5) (7/5)

/-- A lone silence-start detection event. -/
def evStart : DetectMetadata := dm "silence" "start" 4

/-- A silence-end detection event. -/
def evEnd : DetectMetadata := dm "silence" "end" (9/2)

/-- A clip value for driving the encode-driver model (its fields are not
inspected by the loop). -/
def dummyClip : Clip := ⟨0, 10, 0, 10⟩

/-- A probed stream with an empty tag mapping and the stream-level numeric
duration field `"123.456"` (seconds), the format the external prober emits. -/
def numericDurationStream : StreamInfo := ⟨[], some "123.456"⟩

/-- The end-bound selector of `Media.clip`: a plan point's frame, or the
stream's total frame count for the end-of-video point. -/
def endFrameOf (fps : ℚ) (cnt : ℤ) : Option SplitMetadata → ℤ
  | some sp => sp.frame fps
  | none => cnt

lemma pyRound_intCast (n : ℤ) : pyRound (n : ℚ) = n := by
  simp [pyRound]

lemma pyRound_eq_low (q : ℚ) (n : ℤ) (h1 : (n : ℚ) ≤ q) (h2 : q - n < 1/2) :
    pyRound q = n := by
  have hf : ⌊q⌋ = n := by
    rw [Int.floor_eq_iff]
    exact ⟨h1, by linarith⟩
  simp only [pyRound, hf]
  rw [if_pos h2]

lemma pyRound_eq_high (q : ℚ) (n : ℤ) (h1 : (n : ℚ) ≤ q) (h0 : q < n + 1)
    (h2 : 1/2 < q - n) : pyRound q = n + 1 := by
  have hf : ⌊q⌋ = n := by
    rw [Int.floor_eq_iff]
    exact ⟨h1, by linarith⟩
  simp only [pyRound, hf]
  rw [if_neg (by linarith), if_pos h2]

/-- C4: the claim `overlaps(A,B) == overlaps(B,A)` fails at the containment
branch: `ivInner = [2,3]` lies strictly inside `ivOuter = [0,10]`, so
`overlaps(ivInner, ivOuter)` is true by containment while
`overlaps(ivOuter, ivInner)` finds no containment, no disjointness and both
edge pairs farther apart than the 0.5 s tolerance. -/
theorem overlaps_symm_counterexample :
    ivInner.overlaps ivOuter defaultTolerance = true
    ∧ ivOuter.overlaps ivInner defaultTolerance = false := by
  constructor
  · norm_num [DetectInterval.overlaps, defaultTolerance, ivInner, ivOuter, mkIv, dm]
  · norm_num [DetectInterval.overlaps, defaultTolerance, ivInner, ivOuter, mkIv, dm, abs_le]

/-- C4 (amended): the interval overlap test is symmetric at the default 0.5 s
tolerance whenever neither interval contains the other; one-sided containment
makes it asymmetric (see the counterexample). -/
theorem overlaps_symm_amended (A B : DetectInterval)
    (h1 : ¬(A.start.timestamp ≥ B.start.timestamp ∧ A.«end».timestamp ≤ B.«end».timestamp))
    (h2 : ¬(B.start.timestamp ≥ A.start.timestamp ∧ B.«end».timestamp ≤ A.«end».timestamp)) :
    A.overlaps B defaultTolerance = B.overlaps A defaultTolerance := by
  simp only [DetectInterval.overlaps]
  rw [if_neg h1, if_neg h2]
  have hd : (A.start.timestamp > B.«end».timestamp ∨ A.«end».timestamp < B.start.timestamp)
      ↔ (B.start.timestamp > A.«end».timestamp ∨ B.«end».timestamp < A.start.timestamp) := by
    constructor
    · rintro (h | h)
      · exact Or.inr h
      · exact Or.inl h
    · rintro (h | h)
      · exact Or.inr h
      · exact Or.inl h
  have ht : (|A.start.timestamp - B.start.timestamp| ≤ defaultTolerance
        ∨ |A.«end».timestamp - B.«end».timestamp| ≤ defaultTolerance)
      ↔ (|B.start.timestamp - A.start.timestamp| ≤ defaultTolerance
        ∨ |B.«end».timestamp - A.«end».timestamp| ≤ defaultTolerance) := by
    rw [abs_sub_comm A.start.timestamp, abs_sub_comm A.«end».timestamp]
  rw [if_congr hd rfl (if_congr ht rfl rfl)]

/-- Witness for C4 (amended): `[0,1]` and `[0.4,1.4]` cross without either
containing the other, and the overlap test agrees in both directions. -/
theorem overlaps_symm_amended_witness :
    ¬(ivCrossA.start.timestamp ≥ ivCrossB.start.timestamp
        ∧ ivCrossA.«end».timestamp ≤ ivCrossB.«end».timestamp)
    ∧ ivCrossA.overlaps ivCrossB defaultTolerance = ivCrossB.overlaps ivCrossA defaultTolerance :=
  ⟨by norm_num [ivCrossA, ivCrossB, mkIv, dm],
    overlaps_symm_amended ivCrossA ivCrossB
      (by norm_num [ivCrossA, ivCrossB, mkIv, dm])
      (by norm_num [ivCrossA, ivCrossB, mkIv, dm])⟩

lemma intervals_drop_trailing : ∀ (n : Nat) (fs : List DetectMetadata),
    fs.length ≤ n → 2 ∣ fs.length →
    ∀ e, intervals (fs ++ [e]) = intervals fs := by
  intro n
  induction n with
  | zero =>
    intro fs hle _ e
    have : fs = [] := List.length_eq_zero.mp (Nat.le_zero.mp hle)
    subst this
    rfl
  | succ n ih =>
    intro fs hle hdvd e
    match fs with
    | [] => rfl
    | [f] => simp at hdvd
    | f1 :: f2 :: rest =>
      have h1 : rest.length ≤ n := by
        simp only [List.length_cons] at hle
        omega
      have h2 : 2 ∣ rest.length := by
        simp only [List.length_cons] at hdvd ⊢
        omega
      show intervals (f1 :: f2 :: (rest ++ [e])) = intervals (f1 :: f2 :: rest)
      simp only [intervals]
      rw [ih rest h1 h2 e]

/-- C5 (amended): a malformed pair (first element of a pair not a `start`
edge, or its successor not an `end` edge) is a fatal pairing error, but a
trailing lone event — an odd-length event sequence — is silently discarded:
appending one event to an evenly paired sequence leaves the result unchanged.
The original claim that a trailing unpaired `Start` raises is false. -/
theorem intervals_pairing_amended :
    (∀ f1 f2 rest, ¬(f1.sub_type = some "start" ∧ f2.sub_type = some "end") →
      intervals (f1 :: f2 :: rest) = .error (.expectedStartEnd f1 f2))
    ∧ ∀ (e : DetectMetadata) (fs : List DetectMetadata), 2 ∣ fs.length →
      intervals (fs ++ [e]) = intervals fs := by
  constructor
  · intro f1 f2 rest h
    simp only [intervals, if_neg h]
  · intro e fs h
    exact intervals_drop_trailing fs.length fs le_rfl h e

/-- Witness for C5 (amended): an `end` event followed by a `start` event is a
fatal pairing error, and a trailing lone `start` after one well-formed pair is
ignored. -/
theorem intervals_pairing_amended_witness :
    intervals [evEnd, evStart] = .error (.expectedStartEnd evEnd evStart)
    ∧ intervals ([evStart, evEnd] ++ [evStart]) = intervals [evStart, evEnd] :=
  ⟨intervals_pairing_amended.1 evEnd evStart [] (by decide),
    intervals_pairing_amended.2 evStart [evStart, evEnd] (by decide)⟩

/-- C5: a lone `start` detection event produces an empty interval list with no
error — the unpaired trailing event is silently discarded, contradicting the
claim that building intervals raises a fatal pairing error for it. -/
theorem intervals_pairing_counterexample : intervals [evStart] = .ok [] := rfl

/-- C7 (amended): any line that matches neither the frame-line pattern nor the
key-line pattern raises the fatal `ffmpeg parsing error` — including blank
lines, which match neither pattern; the original claim that blank lines do not
cause the parse to fail is false. -/
theorem frames_strict_amended :
    (∀ line rest, matchFrameLine (pyStrip line) = none →
      matchKeyLine (pyStrip line) = none →
      frames (line :: rest) = .error ("ffmpeg parsing error: " ++ pyStrip line))
    ∧ matchFrameLine "" = none ∧ matchKeyLine "" = none := by
  refine ⟨?_, rfl, rfl⟩
  intro line rest h1 h2
  simp only [frames, framesGo, h1, h2]

/-- Witness for C7 (amended): the non-blank line `garbage` matches neither
pattern and is a fatal parse error. -/
theorem frames_strict_amended_witness :
    matchFrameLine (pyStrip "garbage") = none
    ∧ frames ["garbage"] = .error ("ffmpeg parsing error: " ++ pyStrip "garbage") :=
  ⟨rfl, frames_strict_amended.1 "garbage" [] rfl rfl⟩

/-- C7: a blank line is a fatal parse error, contradicting the claim that
blank lines do not cause the parse to fail. -/
theorem frames_blank_counterexample : frames [""] = .error "ffmpeg parsing error: " := rfl

/-- C8: evaluating `Media.stream_duration` at a stream whose only duration
signal is the stream-level numeric field `"123.456"` (seconds): the fallback
parses it with the `HH:MM:SS.ffffff` parser, which fails unpacking `h:m:s`
from a value with no colons — the code raises a `ValueError` instead of
returning 123.456 s, and the error is not the missing-duration error even
though the claim says that error occurs if and only if no source is present. -/
theorem stream_duration_bug_eval :
    stream_duration numericDurationStream = .error "ValueError: unpack h m s"
    ∧ stream_duration numericDurationStream ≠ .ok (123456/1000 : ℚ)
    ∧ stream_duration numericDurationStream ≠ .error "no duration tag found!!" := by
  have h : stream_duration numericDurationStream = .error "ValueError: unpack h m s" := rfl
  refine ⟨h, by rw [h]; simp, by rw [h]; simp⟩

lemma splitLoop_skip_all (tr : Nat → Bool) (dry : Bool) (ext : String) (n : Nat) :
    ∀ (cs : List Clip) (i : Nat) (st : SplitState),
      (∀ j, j < cs.length → st.exists (clip_file (i + j) ext) = true) →
      splitLoop tr dry ext n i cs st = .ok st := by
  intro cs
  induction cs with
  | nil => intro i st _; rfl
  | cons c cs ih =>
    intro i st h
    have h0 : st.exists (clip_file i ext) = true := by
      have := h 0 (by simp)
      simpa using this
    simp only [splitLoop, h0, if_true]
    exact ih (i + 1) st (fun j hj => by
      have := h (j + 1) (by simpa using Nat.succ_lt_succ hj)
      rwa [show i + (j + 1) = i + 1 + j by omega] at this)

/-- C6: resume idempotence of the encode driver — whenever every planned
clip's final output file already exists, a run of `Media.split` performs zero
transcoder invocations and only writes the manifest: the file set and the
invocation counter are returned unchanged.  (After a successful non-dry run
every output exists — each iteration skips, links or renames the final file
into place — so a second run over an unchanged plan satisfies the hypothesis.) -/
theorem split_resume_idempotent (tr : Nat → Bool) (dry : Bool) (ext : String)
    (cs : List Clip) (st0 : SplitState)
    (h : ∀ j, j < cs.length → st0.exists (clip_file j ext) = true) :
    split tr dry ext cs st0 = .ok ⟨st0.files, st0.transcode_calls, true⟩ := by
  unfold split
  rw [splitLoop_skip_all tr dry ext cs.length cs 0 st0 (fun j hj => by simpa using h j hj)]

/-- Witness for C6: a one-clip plan whose output `000.mkv` is already present
is skipped entirely — the transcoder counter stays at zero. -/
theorem split_resume_idempotent_witness :
    (∀ j, j < ([dummyClip] : List Clip).length →
      SplitState.exists ⟨["000.mkv"], 0, false⟩ (clip_file j ".mkv") = true)
    ∧ split (fun _ => true) false ".mkv" [dummyClip] ⟨["000.mkv"], 0, false⟩ =
      .ok ⟨["000.mkv"], 0, true⟩ := by
  have h : ∀ j, j < ([dummyClip] : List Clip).length →
      SplitState.exists ⟨["000.mkv"], 0, false⟩ (clip_file j ".mkv") = true := by
    intro j hj
    have hj0 : j = 0 := by simpa using hj
    subst hj0
    rfl
  exact ⟨h, split_resume_idempotent (fun _ => true) false ".mkv" [dummyClip] ⟨["000.mkv"], 0, false⟩ h⟩

lemma splitLoop_effects (tr : Nat → Bool) (dry : Bool) (ext : String) (n : Nat) :
    ∀ (cs : List Clip) (i : Nat) (st : SplitState),
      (∀ st1, splitLoop tr dry ext n i cs st = .ok st1 →
        st1.manifest_written = st.manifest_written ∧ st.transcode_calls ≤ st1.transcode_calls)
      ∧ (∀ st1, splitLoop tr dry ext n i cs st = .error st1 →
        st1.manifest_written = st.manifest_written ∧ st.transcode_calls < st1.transcode_calls) := by
  intro cs
  induction cs with
  | nil =>
    intro i st
    constructor
    · intro st1 h
      simp only [splitLoop] at h
      cases h
      exact ⟨rfl, le_rfl⟩
    · intro st1 h
      simp only [splitLoop] at h
      exact Except.noConfusion h
  | cons c cs ih =>
    intro i st
    constructor
    · intro st1 h
      simp only [splitLoop] at h
      by_cases hex : st.exists (clip_file i ext) = true
      · rw [if_pos hex] at h
        exact (ih (i + 1) st).1 st1 h
      · rw [if_neg hex] at h
        by_cases hn : n = 1
        · rw [if_pos hn] at h
          have hh := (ih (i + 1) _).1 st1 h
          exact ⟨hh.1, hh.2⟩
        · rw [if_neg hn] at h
          by_cases hdry : dry = true
          · rw [if_pos hdry] at h
            have hh := (ih (i + 1) _).1 st1 h
            exact ⟨hh.1, hh.2⟩
          · rw [if_neg hdry] at h
            by_cases htr : tr i = true
            · rw [if_pos htr] at h
              have hh := (ih (i + 1) _).1 st1 h
              exact ⟨hh.1, Nat.le_trans (Nat.le_succ _) hh.2⟩
            · rw [if_neg htr] at h
              exact Except.noConfusion h
    · intro st1 h
      simp only [splitLoop] at h
      by_cases hex : st.exists (clip_file i ext) = true
      · rw [if_pos hex] at h
        exact (ih (i + 1) st).2 st1 h
      · rw [if_neg hex] at h
        by_cases hn : n = 1
        · rw [if_pos hn] at h
          have hh := (ih (i + 1) _).2 st1 h
          exact ⟨hh.1, hh.2⟩
        · rw [if_neg hn] at h
          by_cases hdry : dry = true
          · rw [if_pos hdry] at h
            have hh := (ih (i + 1) _).2 st1 h
            exact ⟨hh.1, hh.2⟩
          · rw [if_neg hdry] at h
            by_cases htr : tr i = true
            · rw [if_pos htr] at h
              have hh := (ih (i + 1) _).2 st1 h
              exact ⟨hh.1, Nat.lt_of_le_of_lt (Nat.le_succ _) hh.2⟩
            · rw [if_neg htr] at h
              cases h
              exact ⟨rfl, Nat.lt_succ_self _⟩

/-- C10: the manifest is written exactly on the fatal-error-free completion
of the per-clip loop — if the run aborts (the only abort is a non-zero
transcoder exit, which is raised at that clip with at least one invocation
performed), the manifest flag is untouched, so no `info.yaml` is written at
all; if the run completes, the manifest is written. -/
theorem split_manifest_on_error (tr : Nat → Bool) (dry : Bool) (ext : String)
    (cs : List Clip) (st0 : SplitState) :
    (∀ st1, split tr dry ext cs st0 = .error st1 →
      st1.manifest_written = st0.manifest_written
      ∧ st0.transcode_calls < st1.transcode_calls)
    ∧ (∀ st1, split tr dry ext cs st0 = .ok st1 → st1.manifest_written = true) := by
  constructor
  · intro st1 h
    unfold split at h
    cases hres : splitLoop tr dry ext cs.length 0 cs st0 with
    | ok st => rw [hres] at h; cases h
    | error st =>
      rw [hres] at h
      cases h
      exact (splitLoop_effects tr dry ext cs.length cs 0 st0).2 st1 hres
  · intro st1 h
    unfold split at h
    cases hres : splitLoop tr dry ext cs.length 0 cs st0 with
    | ok st =>
      rw [hres] at h
      cases h
      rfl
    | error st => rw [hres] at h; cases h

/-- Witness for C10: a two-clip plan whose first transcode fails aborts with
one invocation, the partial `.incomplete` artifact on disk and no manifest. -/
theorem split_manifest_on_error_witness :
    split (fun _ => false) false ".mkv" [dummyClip, dummyClip] ⟨[], 0, false⟩ =
      .error ⟨["000.mkv.incomplete"], 1, false⟩
    ∧ (⟨["000.mkv.incomplete"], 1, false⟩ : SplitState).manifest_written = false := by
  have h : split (fun _ => false) false ".mkv" [dummyClip, dummyClip] ⟨[], 0, false⟩ =
      .error ⟨["000.mkv.incomplete"], 1, false⟩ := rfl
  exact ⟨h, ((split_manifest_on_error (fun _ => false) false ".mkv"
    [dummyClip, dummyClip] ⟨[], 0, false⟩).1 ⟨["000.mkv.incomplete"], 1, false⟩ h).1⟩

lemma popFirstOverlap_eq_some {b : DetectInterval} :
    ∀ {ss s ss1}, popFirstOverlap b ss = some (s, ss1) →
      b.overlaps s defaultTolerance = true ∧ s ∈ ss ∧ (s :: ss1).Perm ss ∧ ss1.Sublist ss := by
  intro ss
  induction ss with
  | nil => intro s ss1 h; exact Option.noConfusion h
  | cons s0 t ih =>
    intro s ss1 h
    simp only [popFirstOverlap] at h
    by_cases hov : b.overlaps s0 defaultTolerance = true
    · rw [if_pos hov] at h
      cases h
      exact ⟨hov, List.mem_cons_self s0 t, List.Perm.refl _, (List.Sublist.refl t).cons s0⟩
    · rw [if_neg hov] at h
      cases hrec : popFirstOverlap b t with
      | none => rw [hrec] at h; exact Option.noConfusion h
      | some p =>
        obtain ⟨s1, t1⟩ := p
        rw [hrec] at h
        obtain ⟨h1, h2, h3, h4⟩ := ih hrec
        cases h
        refine ⟨h1, List.mem_cons_of_mem s0 h2, ?_, h4.cons₂ s0⟩
        exact (List.Perm.swap _ _ _).trans (h3.cons s0)

lemma popFirstOverlap_skip {b : DetectInterval} :
    ∀ {ss s ss1}, ss.Pairwise intervalBefore → popFirstOverlap b ss = some (s, ss1) →
      ∀ t ∈ ss1, (b.overlaps t defaultTolerance = false ∧ intervalBefore t s)
        ∨ intervalBefore s t := by
  intro ss
  induction ss with
  | nil => intro s ss1 _ h; exact Option.noConfusion h
  | cons s0 t ih =>
    intro s ss1 hP h
    simp only [popFirstOverlap] at h
    by_cases hov : b.overlaps s0 defaultTolerance = true
    · rw [if_pos hov] at h
      cases h
      intro u hu
      exact Or.inr ((List.pairwise_cons.mp hP).1 u hu)
    · rw [if_neg hov] at h
      cases hrec : popFirstOverlap b t with
      | none => rw [hrec] at h; exact Option.noConfusion h
      | some p =>
        obtain ⟨s1, t1⟩ := p
        rw [hrec] at h
        have hmem1 := (popFirstOverlap_eq_some hrec).2.1
        cases h
        intro u hu
        rcases List.mem_cons.mp hu with rfl | hu1
        · exact Or.inl ⟨Bool.eq_false_iff.mpr hov, (List.pairwise_cons.mp hP).1 _ hmem1⟩
        · exact ih (List.pairwise_cons.mp hP).2 hrec u hu1

lemma split_points_mem :
    ∀ (bs ss : List DetectInterval) (p : SplitMetadata), p ∈ split_points bs ss →
      p.black_frame ∈ bs ∧ p.silent_frame ∈ ss
      ∧ p.black_frame.overlaps p.silent_frame defaultTolerance = true := by
  intro bs
  induction bs with
  | nil => intro ss p hp; simp [split_points] at hp
  | cons b bs ih =>
    intro ss p hp
    simp only [split_points] at hp
    cases hpop : popFirstOverlap b ss with
    | none =>
      rw [hpop] at hp
      obtain ⟨h1, h2, h3⟩ := ih ss p hp
      exact ⟨List.mem_cons_of_mem b h1, h2, h3⟩
    | some q =>
      obtain ⟨s, ss1⟩ := q
      rw [hpop] at hp
      obtain ⟨hov, hmem, _, hsub⟩ := popFirstOverlap_eq_some hpop
      rcases List.mem_cons.mp hp with rfl | hp1
      · exact ⟨List.mem_cons_self b bs, hmem, hov⟩
      · obtain ⟨h1, h2, h3⟩ := ih ss1 p hp1
        exact ⟨List.mem_cons_of_mem b h1, hsub.subset h2, h3⟩

/-- C9: every interval is consumed at most once by the split-point matcher —
the output's black components form a subsequence of the black-interval list,
its silence components a sub-permutation of the silence-interval list (a
matched silence interval is removed from the pool, so none repeats), and the
number of split points never exceeds either list's length. -/
theorem split_points_consume_once (bs ss : List DetectInterval) :
    ((split_points bs ss).map (fun sp => sp.black_frame)).Sublist bs
    ∧ ((split_points bs ss).map (fun sp => sp.silent_frame)).Subperm ss
    ∧ (split_points bs ss).length ≤ min bs.length ss.length := by
  induction bs generalizing ss with
  | nil => simp [split_points, List.nil_subperm]
  | cons b bs ih =>
    cases hpop : popFirstOverlap b ss with
    | none =>
      simp only [split_points, hpop]
      obtain ⟨h1, h2, h3⟩ := ih ss
      refine ⟨h1.cons b, h2, ?_⟩
      simp only [List.length_cons]
      omega
    | some q =>
      obtain ⟨s, ss1⟩ := q
      simp only [split_points, hpop, List.map_cons, List.length_cons]
      obtain ⟨hov, hmem, hperm, hsub⟩ := popFirstOverlap_eq_some hpop
      obtain ⟨h1, h2, h3⟩ := ih ss1
      refine ⟨h1.cons₂ b, ?_, ?_⟩
      · obtain ⟨u, hu1, hu2⟩ := h2
        exact List.Subperm.trans ⟨s :: u, hu1.cons s, hu2.cons₂ s⟩ hperm.subperm
      · have hlen : ss1.length + 1 = ss.length := by
          have := hperm.length_eq
          simpa using this
        omega

lemma overlaps_silence_start_le (b s : DetectInterval) (hb : properI b)
    (h : b.overlaps s defaultTolerance = true) :
    s.start.timestamp ≤ b.«end».timestamp := by
  simp only [DetectInterval.overlaps] at h
  split_ifs at h with h1 h2 h3
  · exact le_trans h1.1 hb
  · exact not_lt.mp (not_or.mp h2).2

lemma overlaps_black_start_le (b s : DetectInterval) (hb : properI b)
    (h : b.overlaps s defaultTolerance = true) :
    b.start.timestamp ≤ s.«end».timestamp := by
  simp only [DetectInterval.overlaps] at h
  split_ifs at h with h1 h2 h3
  · exact le_trans hb h1.2
  · exact not_lt.mp (not_or.mp h2).1

/-- C2 (amended): when the black intervals and the silence intervals are each
pairwise disjoint in ascending order (each interval ends strictly before the
next starts, the shape the detector emits) and every interval is proper
(start ≤ end), the split points come out sorted strictly ascending both by
silence start timestamp and by average silence timestamp.  With lists that are
merely ascending by start timestamp — the original claim's hypothesis — the
order can break (see the counterexample). -/
theorem split_points_sorted_amended :
    ∀ (bs ss : List DetectInterval),
    bs.Pairwise intervalBefore → ss.Pairwise intervalBefore →
    (∀ b ∈ bs, properI b) → (∀ s ∈ ss, properI s) →
    (split_points bs ss).Pairwise (fun p q =>
      p.silent_frame.start.timestamp < q.silent_frame.start.timestamp
      ∧ p.average_start_timestamp < q.average_start_timestamp) := by
  intro bs
  induction bs with
  | nil => intro ss _ _ _ _; simp [split_points]
  | cons b bs ih =>
    intro ss hbs hss hbp hsp
    cases hpop : popFirstOverlap b ss with
    | none =>
      simp only [split_points, hpop]
      exact ih ss (List.pairwise_cons.mp hbs).2 hss
        (fun x hx => hbp x (List.mem_cons_of_mem b hx)) hsp
    | some q =>
      obtain ⟨s, ss1⟩ := q
      simp only [split_points, hpop]
      obtain ⟨hov, hmem, hperm, hsub⟩ := popFirstOverlap_eq_some hpop
      rw [List.pairwise_cons]
      constructor
      · intro p hp
        obtain ⟨hpb, hps, hpov⟩ := split_points_mem bs ss1 p hp
        rcases popFirstOverlap_skip hss hpop p.silent_frame hps with ⟨hov2, hbef⟩ | hbef
        · exfalso
          have h1 : intervalBefore b p.black_frame := (List.pairwise_cons.mp hbs).1 _ hpb
          have hb := hbp b (List.mem_cons_self b bs)
          have hpbp := hbp p.black_frame (List.mem_cons_of_mem b hpb)
          have e1 := overlaps_silence_start_le b s hb hov
          have e2 := overlaps_black_start_le p.black_frame p.silent_frame hpbp hpov
          unfold intervalBefore at h1 hbef
          linarith
        · have hs := hsp s hmem
          have hpsp := hsp p.silent_frame (hsub.subset hps)
          unfold intervalBefore at hbef
          unfold properI at hs hpsp
          constructor
          · exact lt_of_le_of_lt hs hbef
          · simp only [SplitMetadata.average_start_timestamp]
            linarith
      · exact ih ss1 (List.pairwise_cons.mp hbs).2 (hss.sublist hsub)
          (fun x hx => hbp x (List.mem_cons_of_mem b hx)) (fun x hx => hsp x (hsub.subset hx))

/-- C2: with interval lists that are merely ascending by start timestamp —
exactly the claim's hypothesis — the split points need not come out sorted:
blacks `[9.7,30], [9.8,10]` and silences `[0,10], [10.3,30]` match as
(first black, second silence) then (second black, first silence), descending
both by silence start (10.3 then 0) and by average silence timestamp
(20.15 then 5). -/
theorem split_points_sorted_counterexample :
    bMatchCex1.start.timestamp ≤ bMatchCex2.start.timestamp
    ∧ sMatchCex1.start.timestamp ≤ sMatchCex2.start.timestamp
    ∧ split_points [bMatchCex1, bMatchCex2] [sMatchCex1, sMatchCex2] =
        [⟨bMatchCex1, sMatchCex2⟩, ⟨bMatchCex2, sMatchCex1⟩]
    ∧ ¬((⟨bMatchCex1, sMatchCex2⟩ : SplitMetadata).average_start_timestamp ≤
        (⟨bMatchCex2, sMatchCex1⟩ : SplitMetadata).average_start_timestamp)
    ∧ ¬((⟨bMatchCex1, sMatchCex2⟩ : SplitMetadata).silent_frame.start.timestamp ≤
        (⟨bMatchCex2, sMatchCex1⟩ : SplitMetadata).silent_frame.start.timestamp) := by
  norm_num [split_points, popFirstOverlap, DetectInterval.overlaps, defaultTolerance,
    bMatchCex1, bMatchCex2, sMatchCex1, sMatchCex2, mkIv, dm, abs_le,
    SplitMetadata.average_start_timestamp]

/-- Witness for C2 (amended): two disjoint ascending blacks matched against
two disjoint ascending silences produce split points sorted by silence start
and average timestamp. -/
theorem split_points_sorted_amended_witness :
    ([bMatchWit1, bMatchWit2].Pairwise intervalBefore)
    ∧ (split_points [bMatchWit1, bMatchWit2] [sMatchWit1, sMatchWit2]).Pairwise (fun p q =>
        p.silent_frame.start.timestamp < q.silent_frame.start.timestamp
        ∧ p.average_start_timestamp < q.average_start_timestamp) :=
  ⟨by norm_num [List.pairwise_cons, intervalBefore, bMatchWit1, bMatchWit2, mkIv, dm],
    split_points_sorted_amended [bMatchWit1, bMatchWit2] [sMatchWit1, sMatchWit2]
      (by norm_num [List.pairwise_cons, intervalBefore, bMatchWit1, bMatchWit2, mkIv, dm])
      (by norm_num [List.pairwise_cons, intervalBefore, sMatchWit1, sMatchWit2, mkIv, dm])
      (by norm_num [List.forall_mem_cons, properI, bMatchWit1, bMatchWit2, mkIv, dm])
      (by norm_num [List.forall_mem_cons, properI, sMatchWit1, sMatchWit2, mkIv, dm])⟩

/-- C3 (amended): the frame at which the clip planner cuts is the
toward-zero-truncated average of the rounded silence start and end frames,
`int((round(fps x silenceStart) + round(fps x silenceEnd)) / 2)` — not, in
general, `round(fps x averageSilenceTimestamp)` (see the counterexample).
In the spec's scenario — one black interval `[2.00, 2.60]`, one silence
interval `[1.90, 2.70]`, 30 fps — the matcher yields exactly one split point,
its average timestamp is 2.3 s, and both formulas agree on split frame 69. -/
theorem split_frame_amended :
    split_points [blScn] [siScn] = [⟨blScn, siScn⟩]
    ∧ (⟨blScn, siScn⟩ : SplitMetadata).average_start_timestamp = 23/10
    ∧ SplitMetadata.frame ⟨blScn, siScn⟩ 30 = 69
    ∧ pyRound (30 * (23/10 : ℚ)) = 69
    ∧ ∀ (sp : SplitMetadata) (fps : ℚ) (cnt : ℤ) (dur : ℚ),
      (clip (some sp) none fps cnt dur).frame_start =
        Int.tdiv (pyRound (fps * sp.silent_frame.start.timestamp)
          + pyRound (fps * sp.silent_frame.«end».timestamp)) 2 := by
  refine ⟨?_, ?_, ?_, ?_, fun sp fps cnt dur => rfl⟩
  · norm_num [split_points, popFirstOverlap, DetectInterval.overlaps, defaultTolerance,
      blScn, siScn, mkIv, dm]
  · norm_num [SplitMetadata.average_start_timestamp, blScn, siScn, mkIv, dm]
  · have h1 : pyRound ((57:ℚ)) = 57 := by
      rw [show (57:ℚ) = ((57:ℤ) : ℚ) by norm_num]
      exact pyRound_intCast 57
    have h2 : pyRound ((81:ℚ)) = 81 := by
      rw [show (81:ℚ) = ((81:ℤ) : ℚ) by norm_num]
      exact pyRound_intCast 81
    norm_num [SplitMetadata.frame, SplitMetadata.adjusted_start_frame,
      SplitMetadata.adjusted_silent_start_frame, SplitMetadata.adjusted_silent_end_frame,
      fps_adjusted_frame, blScn, siScn, mkIv, dm, h1, h2]
    decide
  · rw [show (30:ℚ) * (23/10) = ((69:ℤ) : ℚ) by norm_num]
    exact pyRound_intCast 69

/-- C3: at 1 fps over the silence interval `[0.4, 1.4]`, the clip planner cuts
at frame `int((round(0.4) + round(1.4)) / 2) = int(0.5) = 0`, while the
claimed `round(videoFps x averageSilenceTimestamp) = round(0.9) = 1`. -/
theorem split_frame_counterexample :
    (clip (some spRoundCex) none 1 100 10).frame_start = 0
    ∧ pyRound (1 * spRoundCex.average_start_timestamp) = 1
    ∧ (0 : ℤ) ≠ 1 := by
  refine ⟨?_, ?_, by omega⟩
  · have h1 : pyRound ((1:ℚ) * (2/5)) = 0 := by
      have := pyRound_eq_low ((1:ℚ) * (2/5)) 0 (by norm_num) (by norm_num)
      simpa using this
    have h2 : pyRound ((1:ℚ) * (7/5)) = 1 := by
      have := pyRound_eq_low ((1:ℚ) * (7/5)) 1 (by norm_num) (by norm_num)
      simpa using this
    simp only [clip, SplitMetadata.frame, SplitMetadata.adjusted_start_frame,
      SplitMetadata.adjusted_silent_start_frame, SplitMetadata.adjusted_silent_end_frame,
      fps_adjusted_frame, spRoundCex, mkIv, dm]
    rw [h1, h2]
    decide
  · have h : (1:ℚ) * spRoundCex.average_start_timestamp = 9/10 := by
      norm_num [SplitMetadata.average_start_timestamp, spRoundCex, mkIv, dm]
    rw [h]
    simpa using pyRound_eq_high (9/10 : ℚ) 0 (by norm_num) (by norm_num) (by norm_num)

lemma clipsOf_chain (fps : ℚ) (cnt : ℤ) (dur : ℚ) :
    ∀ (l : List (Option SplitMetadata)) (a : Option SplitMetadata),
      (∀ x ∈ l.dropLast, ∃ sp, x = some sp) →
      List.Chain' (fun c d => c.frame_end = d.frame_start) (clipsOf fps cnt dur (a :: l)) := by
  intro l
  induction l with
  | nil => intro a _; simp [clipsOf]
  | cons x l ih =>
    intro a h
    cases l with
    | nil => simp [clipsOf]
    | cons y l2 =>
      have hx : ∃ sp, x = some sp := by
        refine h x ?_
        rw [List.dropLast_cons₂]
        exact List.mem_cons_self x _
      have h2 : ∀ z ∈ (y :: l2).dropLast, ∃ sp, z = some sp := by
        intro z hz
        refine h z ?_
        rw [List.dropLast_cons₂]
        exact List.mem_cons_of_mem x hz
      rw [show clipsOf fps cnt dur (a :: x :: y :: l2) =
        clip a x fps cnt dur :: clip x y fps cnt dur :: clipsOf fps cnt dur (y :: l2) from rfl]
      rw [List.chain'_cons]
      constructor
      · obtain ⟨sp, rfl⟩ := hx
        rfl
      · exact ih x h2

lemma clipsOf_ne_nil (fps : ℚ) (cnt : ℤ) (dur : ℚ) :
    ∀ (l : List (Option SplitMetadata)), 2 ≤ l.length → clipsOf fps cnt dur l ≠ [] := by
  intro l h
  match l with
  | p :: q :: rest => simp [clipsOf]
  | [] => simp at h
  | [p] => simp at h

lemma clipsOf_getLast (fps : ℚ) (cnt : ℤ) (dur : ℚ) :
    ∀ (l : List (Option SplitMetadata)) (p q : Option SplitMetadata),
      ((clipsOf fps cnt dur (p :: q :: l)).getLast?).map Clip.frame_end =
        ((q :: l).getLast?).map (endFrameOf fps cnt) := by
  intro l
  induction l with
  | nil => intro p q; rfl
  | cons r l2 ih =>
    intro p q
    rw [show clipsOf fps cnt dur (p :: q :: r :: l2) =
      clip p q fps cnt dur :: clip q r fps cnt dur :: clipsOf fps cnt dur (r :: l2) from rfl]
    rw [List.getLast?_cons_cons, List.getLast?_cons_cons]
    exact ih q r

lemma allSome_dropLast (ms : List SplitMetadata) :
    ∀ (suffix : List (Option SplitMetadata)), suffix = [] ∨ suffix = [none] →
      ∀ x ∈ (ms.map some ++ suffix).dropLast, ∃ sp, x = some sp := by
  intro suffix hs x hx
  rcases hs with rfl | rfl
  · rw [List.append_nil] at hx
    have hx2 := (List.dropLast_sublist (ms.map some)).subset hx
    obtain ⟨sp, _, hsp⟩ := List.mem_map.mp hx2
    exact ⟨sp, hsp.symm⟩
  · rw [List.dropLast_concat] at hx
    obtain ⟨sp, _, hsp⟩ := List.mem_map.mp hx
    exact ⟨sp, hsp.symm⟩

lemma clipsLast_map (fps : ℚ) (cnt : ℤ) :
    ∀ (l : List SplitMetadata) (h : l ≠ []),
      (((l.map some).getLast?).map (endFrameOf fps cnt)) = some ((l.getLast h).frame fps) := by
  intro l
  induction l with
  | nil => intro h; exact absurd rfl h
  | cons a l ih =>
    intro h
    cases l with
    | nil => rfl
    | cons b l2 =>
      rw [show ((a :: b :: l2).map some : List (Option SplitMetadata)) =
        some a :: some b :: l2.map some from rfl]
      rw [List.getLast?_cons_cons]
      exact ih (List.cons_ne_nil b l2)

/-- C1 (amended): for every plan the clip list is non-empty, contiguous and
non-overlapping — `clip[i].frameEnd = clip[i+1].frameStart` for every adjacent
pair.  The union spans exactly `[0, totalFrameCount)` when there are no split
points, when both the leading clip (before the first split) and the trailing
clip (after the last split) last at least the 3 s minimum, or when suppression
leaves at most one plan point — a single split point with both segments
sub-minimum falls back to one whole-video clip.  In the remaining cases a
sub-minimum leading (resp. trailing) segment is dropped from the plan — not
merged into the neighbouring clip — and the first clip starts at the first
split's frame (resp. the last clip ends at the last split's frame); see the
counterexample. -/
theorem clips_contiguous_amended (sps : List SplitMetadata) (fps : ℚ) (cnt : ℤ) (dur : ℚ) :
    List.Chain' (fun c d => c.frame_end = d.frame_start) (clips sps fps cnt dur)
    ∧ clips sps fps cnt dur ≠ []
    ∧ (sps = [] →
      ((clips sps fps cnt dur).head?).map Clip.frame_start = some 0
      ∧ ((clips sps fps cnt dur).getLast?).map Clip.frame_end = some cnt)
    ∧ (∀ s0 rest, sps = s0 :: rest →
      3 ≤ SplitMetadata.time_start s0 →
      3 ≤ dur - SplitMetadata.time_end ((s0 :: rest).getLast (List.cons_ne_nil s0 rest)) →
      ((clips sps fps cnt dur).head?).map Clip.frame_start = some 0
      ∧ ((clips sps fps cnt dur).getLast?).map Clip.frame_end = some cnt)
    ∧ (∀ s0, sps = [s0] →
      ¬(3 ≤ SplitMetadata.time_start s0) →
      ¬(3 ≤ dur - SplitMetadata.time_end s0) →
      clips sps fps cnt dur = [clip none none fps cnt dur]
      ∧ ((clips sps fps cnt dur).head?).map Clip.frame_start = some 0
      ∧ ((clips sps fps cnt dur).getLast?).map Clip.frame_end = some cnt)
    ∧ (∀ s0 rest, sps = s0 :: rest →
      ¬(3 ≤ SplitMetadata.time_start s0) →
      (3 ≤ dur - SplitMetadata.time_end ((s0 :: rest).getLast (List.cons_ne_nil s0 rest))
        ∨ rest ≠ []) →
      ((clips sps fps cnt dur).head?).map Clip.frame_start = some (s0.frame fps))
    ∧ (∀ s0 rest, sps = s0 :: rest →
      ¬(3 ≤ dur - SplitMetadata.time_end ((s0 :: rest).getLast (List.cons_ne_nil s0 rest))) →
      (3 ≤ SplitMetadata.time_start s0 ∨ rest ≠ []) →
      ((clips sps fps cnt dur).getLast?).map Clip.frame_end =
        some (((s0 :: rest).getLast (List.cons_ne_nil s0 rest)).frame fps)) := by
  cases sps with
  | nil =>
    have hc : clips [] fps cnt dur = [clip none none fps cnt dur] := rfl
    refine ⟨?_, ?_, ?_, ?_, ?_, ?_, ?_⟩
    · rw [hc]; exact List.chain'_singleton _
    · rw [hc]; exact List.cons_ne_nil _ _
    · intro _
      rw [hc]
      exact ⟨rfl, rfl⟩
    · intro s0 rest heq _ _
      exact absurd heq (by simp)
    · intro s0 heq _ _
      exact absurd heq (by simp)
    · intro s0 rest heq _ _
      exact absurd heq (by simp)
    · intro s0 rest heq _ _
      exact absurd heq (by simp)
  | cons s0 rest =>
    by_cases hA : (3:ℚ) ≤ SplitMetadata.time_start s0
    · by_cases hB : (3:ℚ) ≤ dur -
        SplitMetadata.time_end ((s0 :: rest).getLast (List.cons_ne_nil s0 rest))
      · have hpts : planPoints (s0 :: rest) dur =
            none :: ((s0 :: rest).map some ++ [none]) := by
          simp only [planPoints, if_pos hA, if_pos hB]
          rfl
        have hlen : ¬((none :: ((s0 :: rest).map some ++ [none]) :
            List (Option SplitMetadata)).length ≤ 1) := by
          simp only [List.length_cons, List.length_append, List.length_map]
          omega
        have hclips : clips (s0 :: rest) fps cnt dur =
            clipsOf fps cnt dur (none :: ((s0 :: rest).map some ++ [none])) := by
          simp only [clips, hpts, if_neg hlen]
        refine ⟨?_, ?_, ?_, ?_, ?_, ?_, ?_⟩
        · rw [hclips]
          exact clipsOf_chain fps cnt dur _ none
            (allSome_dropLast (s0 :: rest) [none] (Or.inr rfl))
        · rw [hclips]
          refine clipsOf_ne_nil fps cnt dur _ ?_
          simp only [List.length_cons, List.length_append, List.length_map]
          omega
        · intro heq
          exact absurd heq (by simp)
        · intro s0' rest' heq _ _
          cases heq
          constructor
          · rw [hclips]
            rfl
          · rw [hclips]
            rw [show (((s0 :: rest).map some ++ [none]) : List (Option SplitMetadata)) =
              some s0 :: (rest.map some ++ [none]) from rfl]
            rw [clipsOf_getLast]
            rw [show ((some s0 : Option SplitMetadata) :: (rest.map some ++ [none])) =
              ((some s0 :: rest.map some) ++ [none]) from rfl]
            rw [List.getLast?_concat]
            rfl
        · intro s0' heq h1 _
          cases heq
          exact absurd hA h1
        · intro s0' rest' heq h1 _
          cases heq
          exact absurd hA h1
        · intro s0' rest' heq h2 _
          cases heq
          exact absurd hB h2
      · have hpts : planPoints (s0 :: rest) dur = none :: (s0 :: rest).map some := by
          simp only [planPoints, if_pos hA, if_neg hB, List.append_nil]
          rfl
        have hlen : ¬((none :: (s0 :: rest).map some :
            List (Option SplitMetadata)).length ≤ 1) := by
          simp only [List.length_cons, List.length_map]
          omega
        have hclips : clips (s0 :: rest) fps cnt dur =
            clipsOf fps cnt dur (none :: (s0 :: rest).map some) := by
          simp only [clips, hpts, if_neg hlen]
        refine ⟨?_, ?_, ?_, ?_, ?_, ?_, ?_⟩
        · rw [hclips]
          refine clipsOf_chain fps cnt dur _ none ?_
          intro x hx
          exact allSome_dropLast (s0 :: rest) [] (Or.inl rfl) x
            (by rw [List.append_nil]; exact hx)
        · rw [hclips]
          refine clipsOf_ne_nil fps cnt dur _ ?_
          simp only [List.length_cons, List.length_map]
          omega
        · intro heq
          exact absurd heq (by simp)
        · intro s0' rest' heq _ h2
          cases heq
          exact absurd h2 hB
        · intro s0' heq h1 _
          cases heq
          exact absurd hA h1
        · intro s0' rest' heq h1 _
          cases heq
          exact absurd hA h1
        · intro s0' rest' heq _ _
          cases heq
          rw [hclips]
          rw [show ((s0 :: rest).map some : List (Option SplitMetadata)) =
            some s0 :: rest.map some from rfl]
          rw [clipsOf_getLast]
          exact clipsLast_map fps cnt (s0 :: rest) (List.cons_ne_nil s0 rest)
    · by_cases hB : (3:ℚ) ≤ dur -
        SplitMetadata.time_end ((s0 :: rest).getLast (List.cons_ne_nil s0 rest))
      · have hpts : planPoints (s0 :: rest) dur =
            some s0 :: (rest.map some ++ [none]) := by
          simp only [planPoints, if_neg hA, if_pos hB]
          rfl
        have hlen : ¬((some s0 :: (rest.map some ++ [none]) :
            List (Option SplitMetadata)).length ≤ 1) := by
          simp only [List.length_cons, List.length_append, List.length_map]
          omega
        have hclips : clips (s0 :: rest) fps cnt dur =
            clipsOf fps cnt dur (some s0 :: (rest.map some ++ [none])) := by
          simp only [clips, hpts, if_neg hlen]
        refine ⟨?_, ?_, ?_, ?_, ?_, ?_, ?_⟩
        · rw [hclips]
          exact clipsOf_chain fps cnt dur _ (some s0)
            (allSome_dropLast rest [none] (Or.inr rfl))
        · rw [hclips]
          refine clipsOf_ne_nil fps cnt dur _ ?_
          simp only [List.length_cons, List.length_append, List.length_map]
          omega
        · intro heq
          exact absurd heq (by simp)
        · intro s0' rest' heq h1 _
          cases heq
          exact absurd h1 hA
        · intro s0' heq _ h2
          cases heq
          exact absurd hB h2
        · intro s0' rest' heq _ _
          cases heq
          rw [hclips]
          cases rest with
          | nil => rfl
          | cons r1 rest2 => rfl
        · intro s0' rest' heq h2 _
          cases heq
          exact absurd hB h2
      · cases rest with
        | nil =>
          have hclips : clips [s0] fps cnt dur = [clip none none fps cnt dur] := by
            have hpts : planPoints [s0] dur = [some s0] := by
              simp only [planPoints, if_neg hA, if_neg hB, List.append_nil]
              rfl
            simp only [clips, hpts]
            rfl
          refine ⟨?_, ?_, ?_, ?_, ?_, ?_, ?_⟩
          · rw [hclips]; exact List.chain'_singleton _
          · rw [hclips]; exact List.cons_ne_nil _ _
          · intro heq
            exact absurd heq (by simp)
          · intro s0' rest' heq h1 _
            cases heq
            exact absurd h1 hA
          · intro s0' heq _ _
            cases heq
            rw [hclips]
            exact ⟨rfl, rfl, rfl⟩
          · intro s0' rest' heq _ h3
            cases heq
            rcases h3 with h3 | h3
            · exact absurd h3 hB
            · exact absurd rfl h3
          · intro s0' rest' heq _ h3
            cases heq
            rcases h3 with h3 | h3
            · exact absurd h3 hA
            · exact absurd rfl h3
        | cons r1 rest2 =>
          have hpts : planPoints (s0 :: r1 :: rest2) dur =
              some s0 :: (r1 :: rest2).map some := by
            simp only [planPoints, if_neg hA, if_neg hB, List.append_nil]
            rfl
          have hlen : ¬((some s0 :: (r1 :: rest2).map some :
              List (Option SplitMetadata)).length ≤ 1) := by
            simp only [List.length_cons, List.length_map]
            omega
          have hclips : clips (s0 :: r1 :: rest2) fps cnt dur =
              clipsOf fps cnt dur (some s0 :: (r1 :: rest2).map some) := by
            simp only [clips, hpts, if_neg hlen]
          refine ⟨?_, ?_, ?_, ?_, ?_, ?_, ?_⟩
          · rw [hclips]
            refine clipsOf_chain fps cnt dur _ (some s0) ?_
            intro x hx
            exact allSome_dropLast (r1 :: rest2) [] (Or.inl rfl) x
              (by rw [List.append_nil]; exact hx)
          · rw [hclips]
            refine clipsOf_ne_nil fps cnt dur _ ?_
            simp only [List.length_cons, List.length_map]
            omega
          · intro heq
            exact absurd heq (by simp)
          · intro s0' rest' heq h1 _
            cases heq
            exact absurd h1 hA
          · intro s0' heq _ _
            simp at heq
          · intro s0' rest' heq _ _
            cases heq
            rw [hclips]
            rfl
          · intro s0' rest' heq h2 _
            cases heq
            rw [hclips]
            rw [show ((r1 :: rest2).map some : List (Option SplitMetadata)) =
              some r1 :: rest2.map some from rfl]
            rw [clipsOf_getLast]
            exact clipsLast_map fps cnt (r1 :: rest2) (List.cons_ne_nil r1 rest2)

/-- C1: a plan with one split point at silence `[1.0, 1.4]` over a 10 s,
300-frame, 30 fps stream has a leading clip shorter than 3 s; the leading
segment is dropped and the first (and only) clip starts at frame 36, not
frame 0, so the union does not span `[0, totalFrameCount)`. -/
theorem clips_span_counterexample :
    ((clips [spPlanCex] 30 300 10).head?).map Clip.frame_start = some 36
    ∧ ¬(((clips [spPlanCex] 30 300 10).head?).map Clip.frame_start = some 0) := by
  have h1 : pyRound ((30:ℚ) * 1) = 30 := by
    rw [show (30:ℚ) * 1 = ((30:ℤ) : ℚ) by norm_num]
    exact pyRound_intCast 30
  have h2 : pyRound ((30:ℚ) * (7/5)) = 42 := by
    rw [show (30:ℚ) * (7/5) = ((42:ℤ) : ℚ) by norm_num]
    exact pyRound_intCast 42
  have hval : ((clips [spPlanCex] 30 300 10).head?).map Clip.frame_start = some 36 := by
    have hA : ¬((3:ℚ) ≤ SplitMetadata.time_start spPlanCex) := by
      norm_num [SplitMetadata.time_start, spPlanCex, mkIv, dm]
    have hB : (3:ℚ) ≤ 10 -
        SplitMetadata.time_end (([spPlanCex].getLast (List.cons_ne_nil spPlanCex []))) := by
      norm_num [SplitMetadata.time_end, spPlanCex, mkIv, dm, List.getLast_singleton]
    have hpts : planPoints [spPlanCex] 10 = [some spPlanCex, none] := by
      simp only [planPoints, if_neg hA, if_pos hB]
      rfl
    have hclips : clips [spPlanCex] 30 300 10 =
        [clip (some spPlanCex) none 30 300 10] := by
      simp only [clips, hpts]
      rfl
    rw [hclips]
    simp only [List.head?_cons, Option.map_some, clip, SplitMetadata.frame,
      SplitMetadata.adjusted_start_frame, SplitMetadata.adjusted_silent_start_frame,
      SplitMetadata.adjusted_silent_end_frame, fps_adjusted_frame, spPlanCex, mkIv, dm]
    rw [h1, h2]
    rfl
  exact ⟨hval, by rw [hval]; simp⟩

/-- Witness for C1 (amended): one split point at silence `[5.0, 5.4]` over a
60 s, 1800-frame stream keeps both boundary points, so the plan spans frame 0
through the total frame count. -/
theorem clips_contiguous_amended_witness :
    (3:ℚ) ≤ SplitMetadata.time_start spPlanWit
    ∧ ((clips [spPlanWit] 30 1800 60).head?).map Clip.frame_start = some 0
    ∧ ((clips [spPlanWit] 30 1800 60).getLast?).map Clip.frame_end = some 1800 := by
  have hA : (3:ℚ) ≤ SplitMetadata.time_start spPlanWit := by
    norm_num [SplitMetadata.time_start, spPlanWit, mkIv, dm]
  have hB : (3:ℚ) ≤ 60 -
      SplitMetadata.time_end (([spPlanWit].getLast (List.cons_ne_nil spPlanWit []))) := by
    norm_num [SplitMetadata.time_end, spPlanWit, mkIv, dm, List.getLast_singleton]
  have hc := (clips_contiguous_amended [spPlanWit] 30 1800 60).2.2.2.1 spPlanWit [] rfl hA hB
  exact ⟨hA, hc.1, hc.2⟩

end SmartSplitter
